import Mathlib

/-!
Shallow embedding of the strike-selection and delayed-execution engine of
`src/main.py` (short-strangle seller for Kite).  Prices, strikes and
tolerances are modelled as rationals; the broker API (`kite.ltp`,
`kite.place_order`) is modelled as an oracle parameter; Python exceptions
are modelled with `Except`.
-/

namespace ShortStrangle

/-- One option contract, with the fields of the Kite instrument dicts the
core reads (`tradingsymbol`, `exchange`, `strike`, `instrument_type`,
`lot_size`). -/
structure Instrument where
  tradingsymbol : String
  exchange : String
  strike : ℚ
  instrument_type : String
  lot_size : ℕ
  deriving DecidableEq, Repr

/-- A `(strike, last traded price)` pair, as produced by the `zip` in `sell`. -/
abbrev Quote := ℚ × ℚ

/-- Python's built-in `round` on an exact rational: round to nearest, ties to
the even integer (banker's rounding), as the CPython semantics of
`round(float)` on exactly representable halves. -/
def pyRound (q : ℚ) : ℤ :=
  if q - ⌊q⌋ < 1/2 then ⌊q⌋
  else if q - ⌊q⌋ > 1/2 then ⌊q⌋ + 1
  else if ⌊q⌋ % 2 = 0 then ⌊q⌋ else ⌊q⌋ + 1

/-- `get_atm(ltp, spd) = round(ltp / spd) * spd` from `src/main.py`. -/
def get_atm (ltp spd : ℚ) : ℚ :=
  (pyRound (ltp / spd) : ℚ) * spd

/-- The rounding the spec sentence describes: ties away from zero
(`floor(q + 1/2)` for positive `q`, mirrored for negative). Modelled from the
spec words "round to nearest, ties away from zero" for comparison with the
source's `pyRound`. -/
def roundTiesAway (q : ℚ) : ℤ :=
  if q - ⌊q⌋ < 1/2 then ⌊q⌋
  else if q - ⌊q⌋ > 1/2 then ⌊q⌋ + 1
  else if q < 0 then ⌊q⌋ else ⌊q⌋ + 1

/-- Modelled from the spec: `get_atm` as the claim reads it, rounding ties
away from zero. -/
def get_atm_tiesAway (ltp spd : ℚ) : ℚ :=
  (roundTiesAway (ltp / spd) : ℚ) * spd

/-- The global snapshot rebuilt by `refresh_data`: `ATM`, `TSUD`
(ten strikes up/down), `CE_OTM`, `PE_OTM`. -/
structure Snapshot where
  atm : ℚ
  tsud : List Instrument
  ce_otm : List Instrument
  pe_otm : List Instrument
  deriving Repr

/-- `refresh_data` from `src/main.py`, as a pure function of the instrument
universe, the fresh reference LTP and the strike-price difference `SPD`. -/
def refresh_data (instruments : List Instrument) (ltp spd : ℚ) : Snapshot :=
  let ATM := get_atm ltp spd
  let TSUD := instruments.filter fun i =>
    decide (ATM - spd * 10 ≤ i.strike) && decide (i.strike ≤ ATM + spd * 10)
  let CE_OTM := TSUD.filter fun i =>
    i.instrument_type == "CE" && decide (ATM < i.strike)
  let PE_OTM := TSUD.filter fun i =>
    i.instrument_type == "PE" && decide (i.strike < ATM)
  ⟨ATM, TSUD, CE_OTM, PE_OTM⟩

/-- The `f"{exchange}:{tradingsymbol}"` key used to index the quote dict. -/
def instKey (i : Instrument) : String :=
  i.exchange ++ ":" ++ i.tradingsymbol

/-- Keys of a Python dict built by inserting the given keys in order:
first occurrence of each key, later duplicates collapse onto it. -/
def dictKeys : List String → List String
  | [] => []
  | k :: ks => k :: (dictKeys ks).filter (fun k2 => k2 ≠ k)

/-- The quote dict returned by `kite.ltp(keys)`, modelled as an association
list: one entry per distinct requested key, in request insertion order, with
the last traded price given by the oracle `priceOf`. -/
def kite_ltp (priceOf : String → ℚ) (keys : List String) : List (String × ℚ) :=
  (dictKeys keys).map fun k => (k, priceOf k)

/-- `get_ltp_from_inst_list` from `src/main.py`: build the key list, call
`kite.ltp`, and read `last_price` off every dict entry in dict order. -/
def get_ltp_from_inst_list (priceOf : String → ℚ) (instruments : List Instrument) :
    List ℚ :=
  (kite_ltp priceOf (instruments.map instKey)).map (·.2)

/-- `get_instrument(strike, instruments)` from `src/main.py`: first
instrument whose strike matches, else an exception. -/
def get_instrument (strike : ℚ) (instruments : List Instrument) :
    Except String Instrument :=
  match instruments.filter (fun i => decide (i.strike = strike)) with
  | [] => .error "No strike in instruments"
  | i :: _ => .ok i

/-- The tolerance filter inside `fetch_strike_at_price`:
keep `(st, ltp)` when `abs(price - ltp) <= ltp * change`. -/
def tolFilter (price change : ℚ) (quotes : List Quote) : List Quote :=
  quotes.filter fun q => decide (|price - q.2| ≤ q.2 * change)

/-- `fetch_strike_at_price` from `src/main.py`.  Both survivor lists
non-empty: re-sort calls by strike ascending and puts by strike descending
(Python's stable `sort`, here `insertionSort`, which is stable with the same
comparator) and keep the first of each; otherwise return the raw filtered
lists unchanged.  The Python function returns a tuple per leg in the matched
case; that is modelled as a singleton list, preserving the caller-visible
truthiness and indexing. -/
def fetch_strike_at_price (price : ℚ) (zipped_ce zipped_pe : List Quote)
    (change : ℚ) : List Quote × List Quote :=
  let ce := tolFilter price change zipped_ce
  let pe := tolFilter price change zipped_pe
  match ce, pe with
  | c :: cs, p :: ps =>
      let ceS := (c :: cs).insertionSort fun a b => a.1 ≤ b.1
      let peS := (p :: ps).insertionSort fun a b => b.1 ≤ a.1
      ([ceS.headI], [peS.headI])
  | ce, pe => (ce, pe)

/-- Strike distance of an emitted call/put pair. -/
def pairDist (x : Quote × Quote) : ℚ :=
  |x.2.1 - x.1.1|

/-- The keyed candidate triples built by the nested loops of
`fetch_strikes_with_similar_ltp`: for each call entry (outer) and each put
entry (inner), emit `(|st_pe - st_ce|, (st_ce, ce), (st_pe, pe))` when
`abs(pe - ce) < ce * change`. -/
def similarPairsKeyed (zipped_ce zipped_pe : List Quote) (change : ℚ) :
    List (ℚ × Quote × Quote) :=
  zipped_ce.flatMap fun c =>
    (zipped_pe.filter fun p => decide (|p.2 - c.2| < c.2 * change)).map
      fun p => (|p.1 - c.1|, c, p)

/-- `fetch_strikes_with_similar_ltp` from `src/main.py`: sort the keyed
triples by strike distance (stable) and drop the key. -/
def fetch_strikes_with_similar_ltp (zipped_ce zipped_pe : List Quote)
    (change : ℚ) : List (Quote × Quote) :=
  ((similarPairsKeyed zipped_ce zipped_pe change).insertionSort
      fun a b => a.1 ≤ b.1).map (·.2)

/-- `input_time` from `src/main.py`, as a function of the parsed user
instant and the sampled current time (both in seconds): compute the delay
and raise `ValueError("Must enter future time")` exactly when it is
negative. -/
def input_time (user_date now : ℚ) : Except String ℚ :=
  let delay := user_date - now
  if delay < 0 then .error "Must enter future time" else .ok delay

/-- Which leg an order submission belongs to. -/
inductive LegSide
  | CE
  | PE
  deriving DecidableEq, Repr

/-- One `place_order` invocation as `sell` issues it: symbol, quantity and
stop-loss, tagged with the leg. -/
structure OrderAttempt where
  side : LegSide
  tradingsymbol : String
  quantity : ℕ
  sl : ℚ
  deriving DecidableEq, Repr

/-- The call-leg order `sell` submits: the call instrument's symbol,
`qty = 1 * ce_ins['lot_size']`, stop-loss `ce[1] * 0.2`. -/
def ceAttempt (ce_ins : Instrument) (ce : Quote) : OrderAttempt :=
  ⟨.CE, ce_ins.tradingsymbol, 1 * ce_ins.lot_size, ce.2 * (2/10)⟩

/-- The put-leg order `sell` submits: the put instrument's symbol, the same
`qty` computed from the CALL instrument's lot size, stop-loss `pe[1] * 0.2`. -/
def peAttempt (ce_ins pe_ins : Instrument) (pe : Quote) : OrderAttempt :=
  ⟨.PE, pe_ins.tradingsymbol, 1 * ce_ins.lot_size, pe.2 * (2/10)⟩

/-- The order-placement tail of `sell` (lines 242-257): place the call-leg
order, then the put-leg order.  `place_order` re-raises any exception, and
`sell` does not catch it, so a call-leg failure propagates before the
put-leg call is reached.  Returns the list of submissions actually attempted
together with the outcome. -/
def sell_place_legs (placeOrder : OrderAttempt → Except String ℕ)
    (ce_ins pe_ins : Instrument) (ce pe : Quote) :
    List OrderAttempt × Except String (ℕ × ℕ) :=
  let cA := ceAttempt ce_ins ce
  match placeOrder cA with
  | .error e => ([cA], .error e)
  | .ok ceId =>
      let pA := peAttempt ce_ins pe_ins pe
      match placeOrder pA with
      | .error e => ([cA, pA], .error e)
      | .ok peId => ([cA, pA], .ok (ceId, peId))

/-! ## Claim C1: leg independence of order submission -/

/-- C1 counterexample: with a broker that rejects the call-leg order, the
execution attempts only the call leg — the put-leg order is never submitted,
contradicting the claim that the put leg is still submitted. -/
theorem c1_counterexample :
    (sell_place_legs (fun a => if a.side = .CE then .error "rejected" else .ok 1)
        ⟨"NIFTY17900CE", "NFO", 17900, "CE", 50⟩ ⟨"NIFTY17750PE", "NFO", 17750, "PE", 50⟩
        (17900, 92) (17750, 98)).1.map (·.side) = [.CE] ∧
    (sell_place_legs (fun a => if a.side = .CE then .error "rejected" else .ok 1)
        ⟨"NIFTY17900CE", "NFO", 17900, "CE", 50⟩ ⟨"NIFTY17750PE", "NFO", 17750, "PE", 50⟩
        (17900, 92) (17750, 98)).2 = .error "rejected" := by
  constructor <;> rfl

/-- C1 (amended): a call-leg submission failure aborts the execution — the
exception propagates, the put-leg order is never attempted, and only the
call-leg outcome is reported. -/
theorem c1_thm (placeOrder : OrderAttempt → Except String ℕ)
    (ce_ins pe_ins : Instrument) (ce pe : Quote) (e : String)
    (h : placeOrder (ceAttempt ce_ins ce) = .error e) :
    sell_place_legs placeOrder ce_ins pe_ins ce pe = ([ceAttempt ce_ins ce], .error e) := by
  simp [sell_place_legs, h]

/-- C1 witness: the abort theorem applied to a concrete rejecting broker. -/
theorem c1_witness :
    sell_place_legs (fun _ => .error "margin")
        ⟨"NIFTY17900CE", "NFO", 17900, "CE", 50⟩ ⟨"NIFTY17750PE", "NFO", 17750, "PE", 50⟩
        (17900, 92) (17750, 98) =
      ([ceAttempt ⟨"NIFTY17900CE", "NFO", 17900, "CE", 50⟩ (17900, 92)], .error "margin") :=
  c1_thm (fun _ => .error "margin") _ _ _ _ "margin" rfl

/-! ## Claim C2: the worked matching example -/

/-- C2 counterexample: on the claim's inputs (target 100, tolerance 0.10)
the function does not return call `(17950, 101)` / put `(17700, 105)` —
quote 92 also survives the band (`|100 - 92| = 8 ≤ 9.2`), so the lowest
surviving call strike is 17900, and the highest surviving put strike 17750. -/
theorem c2_counterexample :
    fetch_strike_at_price 100 [(17900, 92), (17950, 101), (18000, 115)]
        [(17750, 98), (17700, 105)] (1/10) ≠ ([(17950, 101)], [(17700, 105)]) := by
  norm_num [fetch_strike_at_price, tolFilter, List.filter, List.insertionSort,
    List.orderedInsert, List.headI]

/-- C2 (amended): on those inputs the match returns call `(17900, 92)` and
put `(17750, 98)`. -/
theorem c2_thm :
    fetch_strike_at_price 100 [(17900, 92), (17950, 101), (18000, 115)]
        [(17750, 98), (17700, 105)] (1/10) = ([(17900, 92)], [(17750, 98)]) := by
  norm_num [fetch_strike_at_price, tolFilter, List.filter, List.insertionSort,
    List.orderedInsert, List.headI]

/-! ## Claim C3: rejection of non-future fire instants -/

/-- C3 counterexample: a fire instant exactly equal to now (delay zero) is
accepted (`delay < 0` is false), contradicting the claim that it fails. -/
theorem c3_counterexample : input_time 100 100 = .ok 0 := by
  norm_num [input_time]

/-- C3 (amended): the scheduling request fails with the invalid-time error
exactly when the instant is strictly earlier than now; an instant equal to
now is accepted with delay zero, and every strictly future instant is
accepted with its positive delay. -/
theorem c3_thm (user_date now : ℚ) :
    (user_date < now → input_time user_date now = .error "Must enter future time") ∧
    (now ≤ user_date → input_time user_date now = .ok (user_date - now)) := by
  constructor
  · intro h
    have hd : user_date - now < 0 := sub_neg.mpr h
    simp [input_time, hd]
  · intro h
    have hd : ¬user_date - now < 0 := not_lt.mpr (sub_nonneg.mpr h)
    simp [input_time, hd]

/-- C3 witness: the amended dichotomy at concrete instants (one past, one
future). -/
theorem c3_witness :
    input_time 100 200 = .error "Must enter future time" ∧
    input_time 300 200 = .ok 100 := by
  refine ⟨(c3_thm 100 200).1 (by norm_num), ?_⟩
  have h := (c3_thm 300 200).2 (by norm_num)
  norm_num at h ⊢
  exact h

/-! ## Claim C4: per-leg order quantity -/

/-- C4 counterexample: with differing lot sizes (call 50, put 75) and a
broker that accepts both legs, both submitted quantities are `50` — the
put-leg order uses the call instrument's lot size, not its own. -/
theorem c4_counterexample :
    (sell_place_legs (fun _ => .ok 1)
        ⟨"NIFTY17900CE", "NFO", 17900, "CE", 50⟩ ⟨"NIFTY17750PE", "NFO", 17750, "PE", 75⟩
        (17900, 92) (17750, 98)).1.map (·.quantity) = [50, 50] ∧ (50 : ℕ) ≠ 1 * 75 := by
  constructor
  · rfl
  · decide

/-- C4 (amended): every order the execution submits — call leg and put leg
alike — carries quantity `1 * ce_ins.lot_size`, the CALL instrument's lot
size. -/
theorem c4_thm (placeOrder : OrderAttempt → Except String ℕ)
    (ce_ins pe_ins : Instrument) (ce pe : Quote) :
    ∀ a ∈ (sell_place_legs placeOrder ce_ins pe_ins ce pe).1,
      a.quantity = 1 * ce_ins.lot_size := by
  intro a ha
  unfold sell_place_legs at ha
  cases hc : placeOrder (ceAttempt ce_ins ce) with
  | error e => simp [hc] at ha; simp [ha, ceAttempt]
  | ok ceId =>
    cases hp : placeOrder (peAttempt ce_ins pe_ins pe) with
    | error e =>
      simp [hc, hp] at ha
      rcases ha with ha | ha <;> simp [ha, ceAttempt, peAttempt]
    | ok peId =>
      simp [hc, hp] at ha
      rcases ha with ha | ha <;> simp [ha, ceAttempt, peAttempt]

/-- C4 witness: the quantity rule applied to the concrete execution of the
counterexample's instruments, at the submitted call-leg order. -/
theorem c4_witness :
    (ceAttempt ⟨"NIFTY17900CE", "NFO", 17900, "CE", 50⟩ (17900, 92)).quantity = 1 * 50 :=
  c4_thm (fun _ => .ok 1) ⟨"NIFTY17900CE", "NFO", 17900, "CE", 50⟩
    ⟨"NIFTY17750PE", "NFO", 17750, "PE", 75⟩ (17900, 92) (17750, 98)
    (ceAttempt ⟨"NIFTY17900CE", "NFO", 17900, "CE", 50⟩ (17900, 92)) (by simp [sell_place_legs])

/-! ## Claim C5: at-the-money rounding -/

/-- Auxiliary: Python rounding lands within half a unit of its argument. -/
theorem pyRound_dist (q : ℚ) : |q - pyRound q| ≤ 1/2 := by
  have h0 : (⌊q⌋ : ℚ) ≤ q := Int.floor_le q
  have h1 : q < ⌊q⌋ + 1 := Int.lt_floor_add_one q
  unfold pyRound
  split_ifs with hlt hgt heven <;>
    (rw [abs_le]; push_cast; constructor <;> linarith)

/-- Auxiliary: at an exact halfway point Python rounding picks the even
integer. -/
theorem pyRound_tie_even (q : ℚ) (h : q - ⌊q⌋ = 1/2) : pyRound q % 2 = 0 := by
  unfold pyRound
  split_ifs with hlt hgt heven
  · exact absurd h (by intro he; rw [he] at hlt; exact lt_irrefl _ hlt)
  · exact absurd h (by intro he; rw [he] at hgt; exact lt_irrefl _ hgt)
  · exact heven
  · omega

/-- C5 counterexample: at `ltp = 125`, `spd = 50` the reference price is
exactly halfway between the multiples 100 and 150; rounding away from zero
would pick 150, but `get_atm` returns 100 (ties to even). -/
theorem c5_counterexample :
    get_atm 125 50 = 100 ∧ get_atm_tiesAway 125 50 = 150 ∧ (100 : ℚ) ≠ 150 := by
  refine ⟨?_, ?_, by norm_num⟩
  · norm_num [get_atm, pyRound]
  · norm_num [get_atm_tiesAway, roundTiesAway]

/-- C5 (amended): for positive spacing, `get_atm` returns the multiple of
the spacing nearest to the reference price, and an exact halfway tie is
resolved to the even multiplier (round-half-to-even), not away from zero. -/
theorem c5_thm (ltp spd : ℚ) (h : 0 < spd) :
    get_atm ltp spd = (pyRound (ltp / spd) : ℚ) * spd ∧
    (∀ m : ℤ, |ltp - get_atm ltp spd| ≤ |ltp - (m : ℚ) * spd|) ∧
    (ltp / spd - ⌊ltp / spd⌋ = 1/2 → pyRound (ltp / spd) % 2 = 0) := by
  refine ⟨rfl, ?_, pyRound_tie_even _⟩
  intro m
  have hspd : spd ≠ 0 := ne_of_gt h
  have hltp : ltp = ltp / spd * spd := by field_simp
  have hdk : |ltp / spd - (pyRound (ltp / spd) : ℚ)| ≤ 1/2 := pyRound_dist _
  have key : |ltp / spd - (pyRound (ltp / spd) : ℚ)| ≤ |ltp / spd - (m : ℚ)| := by
    rcases eq_or_ne m (pyRound (ltp / spd)) with rfl | hne
    · exact le_refl _
    · have h1 : (1 : ℚ) ≤ |(pyRound (ltp / spd) : ℚ) - (m : ℚ)| := by
        have hz : (1 : ℤ) ≤ |pyRound (ltp / spd) - m| :=
          Int.one_le_abs (sub_ne_zero.mpr (Ne.symm hne))
        exact_mod_cast hz
      have h2 : |(pyRound (ltp / spd) : ℚ) - (m : ℚ)| ≤
          |(pyRound (ltp / spd) : ℚ) - ltp / spd| + |ltp / spd - (m : ℚ)| :=
        abs_sub_le _ _ _
      have h3 : |(pyRound (ltp / spd) : ℚ) - ltp / spd| =
          |ltp / spd - (pyRound (ltp / spd) : ℚ)| := abs_sub_comm _ _
      linarith
  have habs : ∀ x : ℚ, |ltp - x * spd| = |ltp / spd - x| * spd := by
    intro x
    calc |ltp - x * spd| = |(ltp / spd - x) * spd| := by rw [sub_mul, ← hltp]
      _ = |ltp / spd - x| * |spd| := abs_mul _ _
      _ = |ltp / spd - x| * spd := by rw [abs_of_pos h]
  have hrw : get_atm ltp spd = (pyRound (ltp / spd) : ℚ) * spd := rfl
  rw [hrw, habs, habs]
  exact mul_le_mul_of_nonneg_right key h.le

/-- C5 witness: the nearest-multiple bound at `ltp = 125`, `spd = 50`,
compared against the multiple `3 * 50 = 150`. -/
theorem c5_witness :
    0 < (50 : ℚ) ∧ |(125 : ℚ) - get_atm 125 50| ≤ |(125 : ℚ) - ((3 : ℤ) : ℚ) * 50| :=
  ⟨by norm_num, (c5_thm 125 50 (by norm_num)).2.1 3⟩

/-! ## Claim C6: behaviour when a filtered list is empty -/

/-- C6 counterexample: with no call quote near the target but a surviving
put quote, the function returns the non-empty put survivor list as the
second component — the result is not the pair of two empty lists the claim
demands. -/
theorem c6_counterexample :
    fetch_strike_at_price 100 [(17900, 500)] [(17750, 98)] (1/10) = ([], [(17750, 98)]) ∧
    (fetch_strike_at_price 100 [(17900, 500)] [(17750, 98)] (1/10)).2 ≠ [] := by
  have h : fetch_strike_at_price 100 [(17900, 500)] [(17750, 98)] (1/10)
      = ([], [(17750, 98)]) := by
    norm_num [fetch_strike_at_price, tolFilter, List.filter]
  exact ⟨h, by rw [h]; simp⟩

/-- C6 (amended): when either tolerance-filtered survivor list is empty, no
tie-break selection happens: the function returns the two raw filtered lists
unchanged, and at least one component of the result is empty (which is what
the caller tests for the no-match fallback). -/
theorem c6_thm (price change : ℚ) (zc zp : List Quote)
    (h : tolFilter price change zc = [] ∨ tolFilter price change zp = []) :
    fetch_strike_at_price price zc zp change =
      (tolFilter price change zc, tolFilter price change zp) ∧
    ((fetch_strike_at_price price zc zp change).1 = [] ∨
      (fetch_strike_at_price price zc zp change).2 = []) := by
  have hmain : fetch_strike_at_price price zc zp change =
      (tolFilter price change zc, tolFilter price change zp) := by
    rcases hce : tolFilter price change zc with _ | ⟨c, cs⟩ <;>
      rcases hpe : tolFilter price change zp with _ | ⟨p, ps⟩ <;>
        simp_all [fetch_strike_at_price]
  refine ⟨hmain, ?_⟩
  rw [hmain]
  rcases h with h | h
  · exact Or.inl h
  · exact Or.inr h

/-- C6 witness: the empty-survivor behaviour at the counterexample's
concrete inputs. -/
theorem c6_witness :
    fetch_strike_at_price 100 [(17900, 500)] [(17750, 98)] (1/10) =
      (tolFilter 100 (1/10) [(17900, 500)], tolFilter 100 (1/10) [(17750, 98)]) ∧
    ((fetch_strike_at_price 100 [(17900, 500)] [(17750, 98)] (1/10)).1 = [] ∨
      (fetch_strike_at_price 100 [(17900, 500)] [(17750, 98)] (1/10)).2 = []) :=
  c6_thm 100 (1/10) [(17900, 500)] [(17750, 98)]
    (Or.inl (by norm_num [tolFilter, List.filter]))

/-! ## Claim C7: batched quote fetch preserves order and length -/

/-- Auxiliary: on a duplicate-free key list the dict keeps every key, in
request order. -/
theorem dictKeys_of_nodup (l : List String) (h : l.Nodup) : dictKeys l = l := by
  induction l with
  | nil => rfl
  | cons k ks ih =>
    rw [List.nodup_cons] at h
    unfold dictKeys
    rw [ih h.2]
    congr 1
    apply List.filter_eq_self.mpr
    intro a ha
    simp only [ne_eq, decide_eq_true_eq]
    exact fun he => h.1 (he ▸ ha)

/-- C7 counterexample: a list repeating the same instrument twice collapses
to a single dict entry, so the returned list has length 1, not the input
length 2 — the claim fails for lists with duplicate symbol keys. -/
theorem c7_counterexample :
    (get_ltp_from_inst_list (fun _ => 7)
        [⟨"S", "NFO", 100, "CE", 50⟩, ⟨"S", "NFO", 100, "CE", 50⟩]).length = 1 ∧
    ([(⟨"S", "NFO", 100, "CE", 50⟩ : Instrument), ⟨"S", "NFO", 100, "CE", 50⟩]).length = 2 := by
  exact ⟨rfl, rfl⟩

/-- C7 (amended): whenever the instruments' `exchange:tradingsymbol` keys
are pairwise distinct, the batched fetch returns exactly the per-instrument
last traded prices in caller order — same length, i-th element the i-th
instrument's price. -/
theorem c7_thm (priceOf : String → ℚ) (insts : List Instrument)
    (h : (insts.map instKey).Nodup) :
    get_ltp_from_inst_list priceOf insts = insts.map (fun i => priceOf (instKey i)) ∧
    (get_ltp_from_inst_list priceOf insts).length = insts.length := by
  have hmain : get_ltp_from_inst_list priceOf insts =
      insts.map (fun i => priceOf (instKey i)) := by
    unfold get_ltp_from_inst_list kite_ltp
    rw [dictKeys_of_nodup _ h, List.map_map, List.map_map]
    rfl
  exact ⟨hmain, by rw [hmain, List.length_map]⟩

/-- C7 witness: the order-preservation theorem at a concrete two-instrument
list with distinct keys and an oracle distinguishing them. -/
theorem c7_witness :
    get_ltp_from_inst_list (fun k => if k = "NFO:A" then 5 else 9)
        [⟨"A", "NFO", 17900, "CE", 50⟩, ⟨"B", "NFO", 17950, "CE", 50⟩] =
      [(⟨"A", "NFO", 17900, "CE", 50⟩ : Instrument), ⟨"B", "NFO", 17950, "CE", 50⟩].map
        (fun i => if instKey i = "NFO:A" then 5 else 9) ∧
    (get_ltp_from_inst_list (fun k => if k = "NFO:A" then 5 else 9)
        [⟨"A", "NFO", 17900, "CE", 50⟩, ⟨"B", "NFO", 17950, "CE", 50⟩]).length =
      [(⟨"A", "NFO", 17900, "CE", 50⟩ : Instrument), ⟨"B", "NFO", 17950, "CE", 50⟩].length :=
  c7_thm (fun k => if k = "NFO:A" then 5 else 9)
    [⟨"A", "NFO", 17900, "CE", 50⟩, ⟨"B", "NFO", 17950, "CE", 50⟩] (by simp [instKey])

/-! ## Claim C8: snapshot invariants -/

/-- C8: after every snapshot rebuild, call candidates are `CE` with strike
strictly above the at-the-money strike, put candidates are `PE` with strike
strictly below it, and all candidates lie within ten strike spacings of it,
inclusive. -/
theorem c8_thm (instruments : List Instrument) (ltp spd : ℚ) :
    (∀ i ∈ (refresh_data instruments ltp spd).ce_otm,
        i.instrument_type = "CE" ∧
        (refresh_data instruments ltp spd).atm < i.strike ∧
        (refresh_data instruments ltp spd).atm - spd * 10 ≤ i.strike ∧
        i.strike ≤ (refresh_data instruments ltp spd).atm + spd * 10) ∧
    (∀ i ∈ (refresh_data instruments ltp spd).pe_otm,
        i.instrument_type = "PE" ∧
        i.strike < (refresh_data instruments ltp spd).atm ∧
        (refresh_data instruments ltp spd).atm - spd * 10 ≤ i.strike ∧
        i.strike ≤ (refresh_data instruments ltp spd).atm + spd * 10) := by
  constructor <;> intro i hi <;>
    simp only [refresh_data, List.mem_filter, Bool.and_eq_true, decide_eq_true_eq,
      beq_iff_eq] at hi ⊢ <;>
    tauto

/-- C8 witness: the invariants at a concrete one-instrument universe
(`ltp = 17832`, `spd = 50`, so `atm = 17850` and the 17900 call is a
candidate). -/
theorem c8_witness :
    (⟨"C", "NFO", 17900, "CE", 50⟩ : Instrument).instrument_type = "CE" ∧
    (refresh_data [⟨"C", "NFO", 17900, "CE", 50⟩] 17832 50).atm <
      (⟨"C", "NFO", 17900, "CE", 50⟩ : Instrument).strike ∧
    (refresh_data [⟨"C", "NFO", 17900, "CE", 50⟩] 17832 50).atm - 50 * 10 ≤
      (⟨"C", "NFO", 17900, "CE", 50⟩ : Instrument).strike ∧
    (⟨"C", "NFO", 17900, "CE", 50⟩ : Instrument).strike ≤
      (refresh_data [⟨"C", "NFO", 17900, "CE", 50⟩] 17832 50).atm + 50 * 10 :=
  (c8_thm [⟨"C", "NFO", 17900, "CE", 50⟩] 17832 50).1 ⟨"C", "NFO", 17900, "CE", 50⟩
    (by norm_num [refresh_data, get_atm, pyRound, List.filter])

/-! ## Claim C10: tolerance filter monotonicity -/

/-- C10: with nonnegative quoted prices, widening the tolerance never drops
a survivor: every entry passing the filter at tolerance `t1 ≤ t2` also
passes it at `t2`. -/
theorem c10_thm (price t1 t2 : ℚ) (qs : List Quote)
    (hnn : ∀ q ∈ qs, 0 ≤ q.2) (ht : t1 ≤ t2) :
    ∀ q ∈ tolFilter price t1 qs, q ∈ tolFilter price t2 qs := by
  intro q hq
  simp only [tolFilter, List.mem_filter, decide_eq_true_eq] at hq ⊢
  rcases hq with ⟨hmem, hcond⟩
  refine ⟨hmem, ?_⟩
  calc |price - q.2| ≤ q.2 * t1 := hcond
    _ ≤ q.2 * t2 := mul_le_mul_of_nonneg_left ht (hnn q hmem)

/-- C10 witness: the quote `(17750, 98)` survives the 5% filter around
target 100 and, by monotonicity, also the 10% filter. -/
theorem c10_witness : ((17750 : ℚ), (98 : ℚ)) ∈ tolFilter 100 (1/10) [(17750, 98)] :=
  c10_thm 100 (1/20) (1/10) [(17750, 98)]
    (by norm_num) (by norm_num) (17750, 98)
    (by norm_num [tolFilter, List.filter])

/-! ## Claim C9: the similarity matcher -/

/-- Auxiliary: every keyed triple carries as key exactly the strike distance
of its pair. -/
theorem similarPairsKeyed_key (zc zp : List Quote) (change : ℚ) :
    ∀ x ∈ similarPairsKeyed zc zp change, x.1 = pairDist x.2 := by
  intro x hx
  simp only [similarPairsKeyed, List.mem_flatMap, List.mem_map, List.mem_filter] at hx
  obtain ⟨c, hc, p, hp, rfl⟩ := hx
  rfl

/-- Auxiliary: membership in the similarity result is exactly the strict
price-similarity predicate over the cross join. -/
theorem mem_fetch_similar (zc zp : List Quote) (change : ℚ) (c p : Quote) :
    (c, p) ∈ fetch_strikes_with_similar_ltp zc zp change ↔
      (c ∈ zc ∧ p ∈ zp ∧ |p.2 - c.2| < c.2 * change) := by
  unfold fetch_strikes_with_similar_ltp
  rw [List.mem_map]
  constructor
  · rintro ⟨y, hy, hproj⟩
    rw [List.mem_insertionSort] at hy
    simp only [similarPairsKeyed, List.mem_flatMap, List.mem_map, List.mem_filter,
      decide_eq_true_eq] at hy
    obtain ⟨c2, hc2, p2, ⟨hp2, hpred⟩, rfl⟩ := hy
    obtain ⟨rfl, rfl⟩ : c2 = c ∧ p2 = p := by
      have h1 : c2 = (c, p).1 := congrArg Prod.fst hproj
      have h2 : p2 = (c, p).2 := congrArg Prod.snd hproj
      exact ⟨h1, h2⟩
    exact ⟨hc2, hp2, hpred⟩
  · rintro ⟨hc, hp, hpred⟩
    refine ⟨(|p.1 - c.1|, c, p), ?_, rfl⟩
    rw [List.mem_insertionSort]
    simp only [similarPairsKeyed, List.mem_flatMap, List.mem_map, List.mem_filter,
      decide_eq_true_eq]
    exact ⟨c, hc, p, ⟨hp, hpred⟩, rfl⟩

/-- Auxiliary: the strike distances of the similarity result are ascending. -/
theorem fetch_similar_sorted (zc zp : List Quote) (change : ℚ) :
    ((fetch_strikes_with_similar_ltp zc zp change).map pairDist).Sorted (· ≤ ·) := by
  have htot : IsTotal (ℚ × Quote × Quote) (fun a b => a.1 ≤ b.1) :=
    ⟨fun a b => le_total a.1 b.1⟩
  have htrans : IsTrans (ℚ × Quote × Quote) (fun a b => a.1 ≤ b.1) :=
    ⟨fun _ _ _ hab hbc => le_trans hab hbc⟩
  have hsorted : ((similarPairsKeyed zc zp change).insertionSort
      (fun a b => a.1 ≤ b.1)).Sorted (fun a b => a.1 ≤ b.1) :=
    List.sorted_insertionSort _ _
  have hkey : ∀ x ∈ (similarPairsKeyed zc zp change).insertionSort
      (fun a b => a.1 ≤ b.1), x.1 = pairDist x.2 := fun x hx =>
    similarPairsKeyed_key zc zp change x ((List.mem_insertionSort _).mp hx)
  have hpair : ((similarPairsKeyed zc zp change).insertionSort
      (fun a b => a.1 ≤ b.1)).Pairwise (fun a b => pairDist a.2 ≤ pairDist b.2) := by
    refine List.Pairwise.imp_of_mem ?_ hsorted
    intro a b ha hb hab
    rw [← hkey a ha, ← hkey b hb]
    exact hab
  unfold fetch_strikes_with_similar_ltp
  rw [List.Sorted, List.map_map, List.pairwise_map]
  exact hpair

/-- C9: the similarity matcher returns exactly the call/put pairs whose
prices differ by strictly less than `callPrice * tolerance`, sorted
ascending by strike distance, and the head of a non-empty result attains the
minimum strike distance among all emitted pairs. -/
theorem c9_thm (zipped_ce zipped_pe : List Quote) (change : ℚ) :
    (∀ c p : Quote, (c, p) ∈ fetch_strikes_with_similar_ltp zipped_ce zipped_pe change ↔
        (c ∈ zipped_ce ∧ p ∈ zipped_pe ∧ |p.2 - c.2| < c.2 * change)) ∧
    ((fetch_strikes_with_similar_ltp zipped_ce zipped_pe change).map pairDist).Sorted (· ≤ ·) ∧
    (∀ x ∈ fetch_strikes_with_similar_ltp zipped_ce zipped_pe change,
        pairDist ((fetch_strikes_with_similar_ltp zipped_ce zipped_pe change).headI) ≤
          pairDist x) := by
  refine ⟨mem_fetch_similar zipped_ce zipped_pe change, fetch_similar_sorted zipped_ce zipped_pe change, ?_⟩
  intro x hx
  have hs := fetch_similar_sorted zipped_ce zipped_pe change
  cases hres : fetch_strikes_with_similar_ltp zipped_ce zipped_pe change with
  | nil => rw [hres] at hx; cases hx
  | cons a t =>
    rw [hres] at hx hs
    simp only [List.headI]
    rw [List.map_cons, List.sorted_cons] at hs
    rcases List.mem_cons.mp hx with rfl | hxt
    · exact le_refl _
    · exact hs.1 (pairDist x) (List.mem_map_of_mem pairDist hxt)

/-- C9 witness: on concrete quote lists the head of the result has a strike
distance no larger than that of the other emitted pair. -/
theorem c9_witness :
    pairDist ((fetch_strikes_with_similar_ltp [(17900, 92), (17950, 101)]
        [(17750, 98), (17700, 105)] (1/20)).headI) ≤
      pairDist ((17950, 101), (17700, 105)) :=
  (c9_thm [(17900, 92), (17950, 101)] [(17750, 98), (17700, 105)] (1/20)).2.2
    ((17950, 101), (17700, 105))
    (by norm_num [fetch_strikes_with_similar_ltp, similarPairsKeyed, List.filter,
      List.insertionSort, List.orderedInsert, List.flatMap])

end ShortStrangle

